import Mathlib

/-!
Verification of the streaming CSV nullify pipeline of bensabler/go-mail.

Shallow embedding of:
  * `internal/nulls/policy.go` — the `Policy` value type and `Policy.IsNull`;
  * `internal/csvio/read.go` — `normalizeRow` and `ReadHead`;
  * `internal/csvio/transform.go` — `NullifyStats` and `NullifyFile`.

Strings are Lean `String`s.  `strings.TrimSpace` and `strings.ToUpper` are
embedded as `TrimSpace` / `ToUpper` below: whitespace is the Latin-1 range of
Go's `unicode.IsSpace` and upper-casing is per-character `Char.toUpper`
(ASCII), which agrees with Go on every character relevant to the policy's
sentinel comparisons ("NA", "N/A", "NULL").

The file-system side of `NullifyFile` is embedded by explicit streams: the
input file is a list of read results (`ReadItem.ok` for a parsed record,
`ReadItem.err` for a mid-stream parse error; end of the list is `io.EOF`),
the CSV writer is a list of successfully written records together with a
failure oracle `wfail : Nat → Bool` giving the result of the n-th `Write`
call (call 0 writes the header), and `flushFail` tells whether the final
`Flush` surfaces a deferred write error.
-/

namespace GoMail

/-- Latin-1 fast path of Go's `unicode.IsSpace`: tab, newline, vertical tab,
form feed, carriage return, space, NEL, and non-breaking space. -/
def isSpaceChar (c : Char) : Bool :=
  c == '\t' || c == '\n' || c == '\u000B' || c == '\u000C' || c == '\r' ||
    c == ' ' || c == '\u0085' || c == '\u00A0'

/-- Embedding of `strings.TrimSpace`: drop leading and trailing whitespace. -/
def TrimSpace (s : String) : String :=
  String.mk (((s.data.dropWhile isSpaceChar).reverse.dropWhile isSpaceChar).reverse)

/-- Embedding of `strings.ToUpper` (per-character upper-casing). -/
def ToUpper (s : String) : String :=
  String.mk (s.data.map Char.toUpper)

/-- `nulls.Policy` from `internal/nulls/policy.go`. -/
structure Policy where
  TreatBlanks : Bool
  TreatNA : Bool
  TreatNULLLiteral : Bool
deriving DecidableEq, Repr

/-- `Policy.IsNull` from `internal/nulls/policy.go`: trim, then test the
blank rule, then upper-case and test the NA and NULL-literal rules. -/
def Policy.IsNull (p : Policy) (s : String) : Bool :=
  let trimmed := TrimSpace s
  if p.TreatBlanks && (trimmed == "") then
    true
  else
    let upper := ToUpper trimmed
    if p.TreatNA && (upper == "NA" || upper == "N/A") then
      true
    else if p.TreatNULLLiteral && (upper == "NULL") then
      true
    else
      false

/-- `normalizeRow` from `internal/csvio/read.go`: a record already of the
requested width is returned as-is; otherwise a fresh width-sized slice is
filled with the first `min (length row) width` fields, the rest staying `""`. -/
def normalizeRow (row : List String) (width : Nat) : List String :=
  if row.length = width then
    row
  else
    row.take (min row.length width) ++ List.replicate (width - min row.length width) ""

lemma normalizeRow_length (row : List String) (width : Nat) :
    (normalizeRow row width).length = width := by
  unfold normalizeRow
  split
  · assumption
  · simp only [List.length_append, List.length_take, List.length_replicate]
    omega

lemma normalizeRow_of_length_eq {row : List String} {width : Nat}
    (h : row.length = width) : normalizeRow row width = row := by
  unfold normalizeRow
  simp [h]

/-- C2: normalizeRow yields exactly `width` elements; with enough fields the
first `width` original values survive unchanged and in order; a short record
is kept whole, in order, and padded with empty strings up to `width`. -/
theorem normalizeRow_spec (row : List String) (width : Nat) :
    (normalizeRow row width).length = width ∧
    (width ≤ row.length → normalizeRow row width = row.take width) ∧
    (row.length < width →
      normalizeRow row width = row ++ List.replicate (width - row.length) "") := by
  refine ⟨normalizeRow_length row width, ?_, ?_⟩
  · intro hge
    unfold normalizeRow
    split
    · rename_i heq
      rw [← heq, List.take_length]
    · rename_i hne
      have hmin : min row.length width = width := Nat.min_eq_right hge
      rw [hmin, Nat.sub_self, List.replicate_zero, List.append_nil]
  · intro hlt
    unfold normalizeRow
    split
    · rename_i heq
      omega
    · rename_i hne
      have hmin : min row.length width = row.length := Nat.min_eq_left (Nat.le_of_lt hlt)
      rw [hmin, List.take_length]

/-- Witness for `normalizeRow_spec` at a short record. -/
theorem normalizeRow_spec_witness :
    normalizeRow ["x", "y"] 3 = ["x", "y", ""] := by
  have h := (normalizeRow_spec ["x", "y"] 3).2.2 (by decide)
  simpa using h

lemma isNull_eq_or (p : Policy) (s : String) :
    p.IsNull s =
      ((p.TreatBlanks && (TrimSpace s == "")) ||
       (p.TreatNA && (ToUpper (TrimSpace s) == "NA" || ToUpper (TrimSpace s) == "N/A")) ||
       (p.TreatNULLLiteral && (ToUpper (TrimSpace s) == "NULL"))) := by
  simp only [Policy.IsNull]
  split
  · rename_i h1
    simp [h1]
  · rename_i h1
    rw [Bool.not_eq_true] at h1
    split
    · rename_i h2
      simp [h1, h2]
    · rename_i h2
      rw [Bool.not_eq_true] at h2
      split
      · rename_i h3
        simp [h1, h2, h3]
      · rename_i h3
        rw [Bool.not_eq_true] at h3
        simp [h1, h2, h3]

lemma isNull_iff (p : Policy) (s : String) :
    p.IsNull s = true ↔
      (p.TreatBlanks = true ∧ TrimSpace s = "") ∨
      (p.TreatNA = true ∧
        (ToUpper (TrimSpace s) = "NA" ∨ ToUpper (TrimSpace s) = "N/A")) ∨
      (p.TreatNULLLiteral = true ∧ ToUpper (TrimSpace s) = "NULL") := by
  rw [isNull_eq_or]
  simp [Bool.or_eq_true, Bool.and_eq_true, or_assoc]

lemma trimSpace_of_all_space {s : String} (h : ∀ c ∈ s.data, isSpaceChar c = true) :
    TrimSpace s = "" := by
  unfold TrimSpace
  have h1 : s.data.dropWhile isSpaceChar = [] := List.dropWhile_eq_nil_iff.mpr h
  rw [h1]
  rfl

/-- C3: `IsNull` returns true exactly when the blank rule fires on the trimmed
value, or the NA rule fires on the upper-cased trimmed value, or the
NULL-literal rule does; and on a whitespace-only string it reduces to the
blank switch alone — the NA and NULL-literal rules never fire there. -/
theorem isNull_spec (p : Policy) (s : String) :
    (p.IsNull s = true ↔
      (p.TreatBlanks = true ∧ TrimSpace s = "") ∨
      (p.TreatNA = true ∧
        (ToUpper (TrimSpace s) = "NA" ∨ ToUpper (TrimSpace s) = "N/A")) ∨
      (p.TreatNULLLiteral = true ∧ ToUpper (TrimSpace s) = "NULL")) ∧
    ((∀ c ∈ s.data, isSpaceChar c = true) → (p.IsNull s = true ↔ p.TreatBlanks = true)) := by
  refine ⟨isNull_iff p s, ?_⟩
  intro hsp
  have ht : TrimSpace s = "" := trimSpace_of_all_space hsp
  have h1 : ToUpper "" ≠ "NA" := by decide
  have h2 : ToUpper "" ≠ "N/A" := by decide
  have h3 : ToUpper "" ≠ "NULL" := by decide
  rw [isNull_iff, ht]
  simp [h1, h2, h3]

/-- Witness for `isNull_spec`: a whitespace-only string is NULL under the
blanks-only policy. -/
theorem isNull_spec_witness :
    Policy.IsNull ⟨true, false, false⟩ " " = true :=
  ((isNull_spec ⟨true, false, false⟩ " ").2 (by decide)).mpr rfl

/-- C5: policy monotonicity — if every switch enabled in `p` is enabled in
`q` then everything `p` classifies as NULL, `q` classifies as NULL too. -/
theorem isNull_mono (s : String) (p q : Policy)
    (hb : p.TreatBlanks = true → q.TreatBlanks = true)
    (hna : p.TreatNA = true → q.TreatNA = true)
    (hnl : p.TreatNULLLiteral = true → q.TreatNULLLiteral = true)
    (h : p.IsNull s = true) : q.IsNull s = true := by
  rw [isNull_iff] at h ⊢
  rcases h with ⟨h1, h2⟩ | ⟨h1, h2⟩ | ⟨h1, h2⟩
  · exact Or.inl ⟨hb h1, h2⟩
  · exact Or.inr (Or.inl ⟨hna h1, h2⟩)
  · exact Or.inr (Or.inr ⟨hnl h1, h2⟩)

/-- Witness for `isNull_mono`: "NA" is NULL under the NA-only policy, so it
stays NULL after enabling the blank rule as well. -/
theorem isNull_mono_witness :
    Policy.IsNull ⟨true, true, false⟩ "NA" = true :=
  isNull_mono "NA" ⟨false, true, false⟩ ⟨true, true, false⟩
    (by decide) (by decide) (by decide) (by decide)

/-- One result of `csv.Reader.Read`: a parsed record or a mid-stream parse
error; running past the end of the list is `io.EOF`. -/
inductive ReadItem where
  | ok (record : List String)
  | err (msg : String)
deriving DecidableEq, Repr

/-- The wrapped error contexts produced by `NullifyFile`, one per fallible
phase after the files are open. -/
inductive NullifyError where
  | readHeaders (msg : String)
  | writeHeaders
  | readRow (msg : String)
  | writeRow
  | flush
deriving DecidableEq, Repr

/-- `csvio.NullifyStats` from `internal/csvio/transform.go`. -/
structure NullifyStats where
  RowsRead : Nat
  CellsChecked : Nat
  CellsNullified : Nat
deriving DecidableEq, Repr

/-- The inner cell loop of `NullifyFile`: walk the normalized record,
blanking every policy match, and count the cells whose value actually
changed (a match that is already `""` is checked but not counted). -/
def nullifyRow (p : Policy) : List String → Nat × List String
  | [] => (0, [])
  | c :: cs =>
    let t := nullifyRow p cs
    if p.IsNull c then
      (if c == "" then t.1 else t.1 + 1, "" :: t.2)
    else
      (t.1, c :: t.2)

/-- The row loop of `NullifyFile`: read items until `io.EOF` (end of list),
aborting on a read error; count the row, normalize it to the header width,
apply the policy per cell, then attempt the write (`wfail widx` is the n-th
`Write` call failing); after the loop, `flushFail` is the deferred error
surfaced by `Flush`.  Returns final stats, successfully written records, and
the error if any. -/
def nullifyLoop (p : Policy) (width : Nat) (wfail : Nat → Bool) (flushFail : Bool) :
    List ReadItem → Nat → NullifyStats → List (List String) →
    NullifyStats × List (List String) × Option NullifyError
  | [], _, stats, written =>
    if flushFail then (stats, written, some NullifyError.flush)
    else (stats, written, none)
  | ReadItem.err m :: _, _, stats, written =>
    (stats, written, some (NullifyError.readRow m))
  | ReadItem.ok row :: rest, widx, stats, written =>
    if wfail widx then
      (⟨stats.RowsRead + 1,
        stats.CellsChecked + (normalizeRow row width).length,
        stats.CellsNullified + (nullifyRow p (normalizeRow row width)).1⟩,
       written, some NullifyError.writeRow)
    else
      nullifyLoop p width wfail flushFail rest (widx + 1)
        ⟨stats.RowsRead + 1,
         stats.CellsChecked + (normalizeRow row width).length,
         stats.CellsNullified + (nullifyRow p (normalizeRow row width)).1⟩
        (written ++ [(nullifyRow p (normalizeRow row width)).2])

/-- `csvio.NullifyFile` from `internal/csvio/transform.go`, from the point
where both files are open: read the header (failure, including an empty
input, is a `readHeaders` error), write it unmodified (write call 0), then
run the row loop with the header's length as the width. -/
def NullifyFile (p : Policy) (input : List ReadItem) (wfail : Nat → Bool)
    (flushFail : Bool) :
    NullifyStats × List (List String) × Option NullifyError :=
  match input with
  | [] => (⟨0, 0, 0⟩, [], some (NullifyError.readHeaders "EOF"))
  | ReadItem.err m :: _ => (⟨0, 0, 0⟩, [], some (NullifyError.readHeaders m))
  | ReadItem.ok headers :: rest =>
    if wfail 0 then (⟨0, 0, 0⟩, [], some NullifyError.writeHeaders)
    else nullifyLoop p headers.length wfail flushFail rest 1 ⟨0, 0, 0⟩ [headers]

/-- The row loop of `csvio.ReadHead`: keep reading while fewer than `n` rows
are collected, stopping quietly at `io.EOF` and failing on a read error;
each collected row is normalized to the header width. -/
def readHeadLoop (width n : Nat) :
    List ReadItem → List (List String) → Except String (List (List String))
  | [], rows => Except.ok rows
  | item :: rest, rows =>
    if rows.length < n then
      match item with
      | ReadItem.err m => Except.error m
      | ReadItem.ok row => readHeadLoop width n rest (rows ++ [normalizeRow row width])
    else
      Except.ok rows

/-- The error contexts of `csvio.ReadHead`. -/
inductive ReadHeadError where
  | readHeaders (msg : String)
  | readRow (msg : String)
deriving DecidableEq, Repr

/-- `csvio.ReadHead` from `internal/csvio/read.go`, from the point where the
file is open: the first record is the header, then up to `n` data rows are
collected, each normalized to the header width. -/
def ReadHead (input : List ReadItem) (n : Nat) :
    Except ReadHeadError (List String × List (List String)) :=
  match input with
  | [] => Except.error (ReadHeadError.readHeaders "EOF")
  | ReadItem.err m :: _ => Except.error (ReadHeadError.readHeaders m)
  | ReadItem.ok headers :: rest =>
    match readHeadLoop headers.length n rest [] with
    | Except.error m => Except.error (ReadHeadError.readRow m)
    | Except.ok rows => Except.ok (headers, rows)

lemma nullifyRow_fst_le (p : Policy) (row : List String) :
    (nullifyRow p row).1 ≤ row.length := by
  induction row with
  | nil => simp [nullifyRow]
  | cons c cs ih =>
    simp only [nullifyRow, List.length_cons]
    split
    · split
      · exact Nat.le_succ_of_le ih
      · exact Nat.succ_le_succ ih
    · exact Nat.le_succ_of_le ih

lemma nullifyRow_snd_length (p : Policy) (row : List String) :
    (nullifyRow p row).2.length = row.length := by
  induction row with
  | nil => simp [nullifyRow]
  | cons c cs ih =>
    simp only [nullifyRow, List.length_cons]
    split
    · simpa using ih
    · simpa using ih

lemma nullifyLoop_inv (p : Policy) (width : Nat) (wfail : Nat → Bool)
    (flushFail : Bool) :
    ∀ (items : List ReadItem) (widx : Nat) (stats : NullifyStats)
      (written : List (List String)),
      stats.CellsChecked = stats.RowsRead * width →
      stats.CellsNullified ≤ stats.CellsChecked →
      (nullifyLoop p width wfail flushFail items widx stats written).1.CellsChecked
          = (nullifyLoop p width wfail flushFail items widx stats written).1.RowsRead
              * width ∧
        (nullifyLoop p width wfail flushFail items widx stats written).1.CellsNullified
          ≤ (nullifyLoop p width wfail flushFail items widx stats written).1.CellsChecked := by
  intro items
  induction items with
  | nil =>
    intro widx stats written h1 h2
    simp only [nullifyLoop]
    split <;> exact ⟨h1, h2⟩
  | cons item rest ih =>
    intro widx stats written h1 h2
    cases item with
    | err m => exact ⟨h1, h2⟩
    | ok row =>
      have hlen : (normalizeRow row width).length = width :=
        normalizeRow_length row width
      have hle : (nullifyRow p (normalizeRow row width)).1
          ≤ (normalizeRow row width).length :=
        nullifyRow_fst_le p (normalizeRow row width)
      have h1' : stats.CellsChecked + (normalizeRow row width).length
          = (stats.RowsRead + 1) * width := by
        rw [hlen, h1, Nat.succ_mul]
      have h2' : stats.CellsNullified + (nullifyRow p (normalizeRow row width)).1
          ≤ stats.CellsChecked + (normalizeRow row width).length :=
        Nat.add_le_add h2 hle
      simp only [nullifyLoop]
      split
      · exact ⟨h1', h2'⟩
      · exact ih (widx + 1)
          ⟨stats.RowsRead + 1,
           stats.CellsChecked + (normalizeRow row width).length,
           stats.CellsNullified + (nullifyRow p (normalizeRow row width)).1⟩
          (written ++ [(nullifyRow p (normalizeRow row width)).2]) h1' h2'

/-- C1: on any run whose input starts with a header record — whether it then
succeeds or stops at a read, write, or flush error — the returned stats
satisfy `CellsChecked = RowsRead * width` for the header's width, and
`CellsNullified ≤ CellsChecked`. -/
theorem nullifyFile_counting (p : Policy) (headers : List String)
    (rest : List ReadItem) (wfail : Nat → Bool) (flushFail : Bool) :
    (NullifyFile p (ReadItem.ok headers :: rest) wfail flushFail).1.CellsChecked
        = (NullifyFile p (ReadItem.ok headers :: rest) wfail flushFail).1.RowsRead
            * headers.length ∧
      (NullifyFile p (ReadItem.ok headers :: rest) wfail flushFail).1.CellsNullified
        ≤ (NullifyFile p (ReadItem.ok headers :: rest) wfail flushFail).1.CellsChecked := by
  simp only [NullifyFile]
  split
  · exact ⟨(Nat.zero_mul headers.length).symm, Nat.le_refl 0⟩
  · exact nullifyLoop_inv p headers.length wfail flushFail rest 1 ⟨0, 0, 0⟩
      [headers] (Nat.zero_mul headers.length).symm (Nat.le_refl 0)

/-- C4, counterexample: on Scenario A's input — policy with only blanks
enabled, header `a,b`, data rows `["1",""]` and `[" ","2"]` — the run does
NOT report `cellsNullified = 2`: the empty cell of the first row matches the
policy but is already empty, so it is checked without being counted as
nullified. -/
theorem scenarioA_claim_false :
    ¬ (NullifyFile ⟨true, false, false⟩
        [ReadItem.ok ["a", "b"], ReadItem.ok ["1", ""], ReadItem.ok [" ", "2"]]
        (fun _ => false) false).1.CellsNullified = 2 := by
  decide

/-- C4, amended: Scenario A's run writes the rows `1,` and `,2` and returns
`rowsRead = 2`, `cellsChecked = 4`, `cellsNullified = 1`. -/
theorem scenarioA_amended :
    NullifyFile ⟨true, false, false⟩
        [ReadItem.ok ["a", "b"], ReadItem.ok ["1", ""], ReadItem.ok [" ", "2"]]
        (fun _ => false) false
      = (⟨2, 4, 1⟩, [["a", "b"], ["1", ""], ["", "2"]], none) := by
  decide

lemma nullifyLoop_written_extends (p : Policy) (width : Nat) (wfail : Nat → Bool)
    (flushFail : Bool) :
    ∀ (items : List ReadItem) (widx : Nat) (stats : NullifyStats)
      (written : List (List String)),
      ∃ extra, (nullifyLoop p width wfail flushFail items widx stats written).2.1
        = written ++ extra := by
  intro items
  induction items with
  | nil =>
    intro widx stats written
    simp only [nullifyLoop]
    split
    · exact ⟨[], (List.append_nil written).symm⟩
    · exact ⟨[], (List.append_nil written).symm⟩
  | cons item rest ih =>
    intro widx stats written
    cases item with
    | err m => exact ⟨[], (List.append_nil written).symm⟩
    | ok row =>
      simp only [nullifyLoop]
      split
      · exact ⟨[], (List.append_nil written).symm⟩
      · obtain ⟨extra, hextra⟩ := ih (widx + 1)
          ⟨stats.RowsRead + 1,
           stats.CellsChecked + (normalizeRow row width).length,
           stats.CellsNullified + (nullifyRow p (normalizeRow row width)).1⟩
          (written ++ [(nullifyRow p (normalizeRow row width)).2])
        exact ⟨(nullifyRow p (normalizeRow row width)).2 :: extra, by
          rw [hextra, List.append_assoc]
          rfl⟩

/-- C7: whenever the header is read and written successfully (write call 0
does not fail), the output stream starts with the input header, unmodified,
with all data rows coming after it — for every policy and every outcome of
the rest of the run. -/
theorem nullifyFile_header_fidelity (p : Policy) (headers : List String)
    (rest : List ReadItem) (wfail : Nat → Bool) (flushFail : Bool)
    (h : wfail 0 = false) :
    ∃ tail, (NullifyFile p (ReadItem.ok headers :: rest) wfail flushFail).2.1
      = headers :: tail := by
  simp only [NullifyFile, h]
  simpa using nullifyLoop_written_extends p headers.length wfail flushFail rest 1
    ⟨0, 0, 0⟩ [headers]

/-- Witness for `nullifyFile_header_fidelity` on a concrete two-row input. -/
theorem nullifyFile_header_fidelity_witness :
    ∃ tail, (NullifyFile ⟨true, false, false⟩
        [ReadItem.ok ["a", "b"], ReadItem.ok ["1", ""]]
        (fun _ => false) false).2.1 = ["a", "b"] :: tail :=
  nullifyFile_header_fidelity ⟨true, false, false⟩ ["a", "b"]
    [ReadItem.ok ["1", ""]] (fun _ => false) false rfl

lemma nullifyLoop_read_error (p : Policy) (width : Nat) (flushFail : Bool)
    (m : String) (errRest : List ReadItem) :
    ∀ (rows : List (List String)) (widx : Nat) (stats : NullifyStats)
      (written : List (List String)),
      nullifyLoop p width (fun _ => false) flushFail
          (rows.map ReadItem.ok ++ ReadItem.err m :: errRest) widx stats written
        = ((nullifyLoop p width (fun _ => false) false
              (rows.map ReadItem.ok) widx stats written).1,
           (nullifyLoop p width (fun _ => false) false
              (rows.map ReadItem.ok) widx stats written).2.1,
           some (NullifyError.readRow m)) := by
  intro rows
  induction rows with
  | nil =>
    intro widx stats written
    simp [nullifyLoop]
  | cons row rest ih =>
    intro widx stats written
    exact ih (widx + 1)
      ⟨stats.RowsRead + 1,
       stats.CellsChecked + (normalizeRow row width).length,
       stats.CellsNullified + (nullifyRow p (normalizeRow row width)).1⟩
      (written ++ [(nullifyRow p (normalizeRow row width)).2])

/-- C8: when the stream hits a genuine mid-row read error after some number
of well-formed rows (and no write failures occur), the run stops there: it
returns exactly the stats and the written output of a clean run over the
rows before the failure, together with a `readRow` error carrying the
reader's message — the failed row contributes to no counter. -/
theorem nullifyFile_read_error_aborts (p : Policy) (headers : List String)
    (goodRows : List (List String)) (m : String) (errRest : List ReadItem)
    (flushFail : Bool) :
    NullifyFile p
        (ReadItem.ok headers :: (goodRows.map ReadItem.ok ++ ReadItem.err m :: errRest))
        (fun _ => false) flushFail
      = ((NullifyFile p (ReadItem.ok headers :: goodRows.map ReadItem.ok)
            (fun _ => false) false).1,
         (NullifyFile p (ReadItem.ok headers :: goodRows.map ReadItem.ok)
            (fun _ => false) false).2.1,
         some (NullifyError.readRow m)) := by
  exact nullifyLoop_read_error p headers.length flushFail m errRest goodRows 1
    ⟨0, 0, 0⟩ [headers]

lemma nullifyRow_snd_clean (p : Policy) (row : List String) :
    ∀ c ∈ (nullifyRow p row).2, p.IsNull c = true → c = "" := by
  induction row with
  | nil => simp [nullifyRow]
  | cons c cs ih =>
    simp only [nullifyRow]
    split
    · intro x hx hnull
      rcases List.mem_cons.mp hx with h | h
      · exact h
      · exact ih x h hnull
    · rename_i hfalse
      intro x hx hnull
      rcases List.mem_cons.mp hx with h | h
      · subst h
        exact absurd hnull hfalse
      · exact ih x h hnull

lemma nullifyRow_fst_of_clean (p : Policy) (row : List String)
    (h : ∀ c ∈ row, p.IsNull c = true → c = "") : (nullifyRow p row).1 = 0 := by
  induction row with
  | nil => rfl
  | cons c cs ih =>
    have htail : (nullifyRow p cs).1 = 0 :=
      ih fun x hx => h x (List.mem_cons_of_mem c hx)
    simp only [nullifyRow]
    split
    · rename_i hnull
      have hc : c = "" := h c (List.mem_cons_self c cs) hnull
      simp [hc, htail]
    · exact htail

lemma nullifyLoop_allOk_err (p : Policy) (width : Nat) :
    ∀ (rows : List (List String)) (widx : Nat) (stats : NullifyStats)
      (written : List (List String)),
      (nullifyLoop p width (fun _ => false) false (rows.map ReadItem.ok)
        widx stats written).2.2 = none := by
  intro rows
  induction rows with
  | nil => intro widx stats written; rfl
  | cons row rest ih =>
    intro widx stats written
    exact ih (widx + 1)
      ⟨stats.RowsRead + 1,
       stats.CellsChecked + (normalizeRow row width).length,
       stats.CellsNullified + (nullifyRow p (normalizeRow row width)).1⟩
      (written ++ [(nullifyRow p (normalizeRow row width)).2])

lemma nullifyLoop_allOk_written (p : Policy) (width : Nat) :
    ∀ (rows : List (List String)) (widx : Nat) (stats : NullifyStats)
      (written : List (List String)),
      (nullifyLoop p width (fun _ => false) false (rows.map ReadItem.ok)
          widx stats written).2.1
        = written ++ rows.map fun r => (nullifyRow p (normalizeRow r width)).2 := by
  intro rows
  induction rows with
  | nil =>
    intro widx stats written
    exact (List.append_nil written).symm
  | cons row rest ih =>
    intro widx stats written
    have h := ih (widx + 1)
      ⟨stats.RowsRead + 1,
       stats.CellsChecked + (normalizeRow row width).length,
       stats.CellsNullified + (nullifyRow p (normalizeRow row width)).1⟩
      (written ++ [(nullifyRow p (normalizeRow row width)).2])
    exact h.trans (by simp)

lemma nullifyLoop_clean_nullified (p : Policy) (width : Nat) :
    ∀ (rows : List (List String)),
      (∀ r ∈ rows, r.length = width ∧ ∀ c ∈ r, p.IsNull c = true → c = "") →
      ∀ (widx : Nat) (stats : NullifyStats) (written : List (List String)),
        (nullifyLoop p width (fun _ => false) false (rows.map ReadItem.ok)
          widx stats written).1.CellsNullified = stats.CellsNullified := by
  intro rows
  induction rows with
  | nil => intro _ widx stats written; rfl
  | cons row rest ih =>
    intro hclean widx stats written
    obtain ⟨hlen, hrow⟩ := hclean row (List.mem_cons_self row rest)
    have hnorm : normalizeRow row width = row := normalizeRow_of_length_eq hlen
    have hz : (nullifyRow p (normalizeRow row width)).1 = 0 := by
      rw [hnorm]
      exact nullifyRow_fst_of_clean p row hrow
    have h := ih (fun r hr => hclean r (List.mem_cons_of_mem row hr)) (widx + 1)
      ⟨stats.RowsRead + 1,
       stats.CellsChecked + (normalizeRow row width).length,
       stats.CellsNullified + (nullifyRow p (normalizeRow row width)).1⟩
      (written ++ [(nullifyRow p (normalizeRow row width)).2])
    exact h.trans (by simp [hz])

/-- C6: running the transformer a second time, with the same policy, on the
full output of a successful first run reports `cellsNullified = 0`: every
policy match in the second pass is already empty. -/
theorem nullify_idempotent (p : Policy) (headers : List String)
    (rows : List (List String)) :
    (NullifyFile p (ReadItem.ok headers :: rows.map ReadItem.ok)
        (fun _ => false) false).2.2 = none ∧
      (NullifyFile p
          ((NullifyFile p (ReadItem.ok headers :: rows.map ReadItem.ok)
              (fun _ => false) false).2.1.map ReadItem.ok)
          (fun _ => false) false).1.CellsNullified = 0 := by
  constructor
  · exact nullifyLoop_allOk_err p headers.length rows 1 ⟨0, 0, 0⟩ [headers]
  · have hw : (NullifyFile p (ReadItem.ok headers :: rows.map ReadItem.ok)
        (fun _ => false) false).2.1
        = headers :: (rows.map fun r => (nullifyRow p (normalizeRow r headers.length)).2) :=
      nullifyLoop_allOk_written p headers.length rows 1 ⟨0, 0, 0⟩ [headers]
    rw [hw]
    have hclean : ∀ r ∈ rows.map fun r => (nullifyRow p (normalizeRow r headers.length)).2,
        r.length = headers.length ∧ ∀ c ∈ r, p.IsNull c = true → c = "" := by
      intro r hr
      obtain ⟨r0, _, hr0⟩ := List.mem_map.mp hr
      subst hr0
      refine ⟨?_, nullifyRow_snd_clean p (normalizeRow r0 headers.length)⟩
      rw [nullifyRow_snd_length, normalizeRow_length]
    exact nullifyLoop_clean_nullified p headers.length
      (rows.map fun r => (nullifyRow p (normalizeRow r headers.length)).2)
      hclean 1 ⟨0, 0, 0⟩ [headers]

lemma isNull_allOff (s : String) :
    Policy.IsNull ⟨false, false, false⟩ s = false := by
  simp [Policy.IsNull]

lemma nullifyRow_allOff (row : List String) :
    nullifyRow ⟨false, false, false⟩ row = (0, row) := by
  induction row with
  | nil => rfl
  | cons c cs ih => simp [nullifyRow, isNull_allOff, ih]

lemma nullifyLoop_allOff_nullified (width : Nat) (wfail : Nat → Bool)
    (flushFail : Bool) :
    ∀ (items : List ReadItem) (widx : Nat) (stats : NullifyStats)
      (written : List (List String)),
      (nullifyLoop ⟨false, false, false⟩ width wfail flushFail items
        widx stats written).1.CellsNullified = stats.CellsNullified := by
  intro items
  induction items with
  | nil =>
    intro widx stats written
    simp only [nullifyLoop]
    split <;> rfl
  | cons item rest ih =>
    intro widx stats written
    cases item with
    | err m => rfl
    | ok row =>
      have hz : (nullifyRow ⟨false, false, false⟩ (normalizeRow row width)).1 = 0 := by
        rw [nullifyRow_allOff]
      simp only [nullifyLoop]
      split
      · simp [hz]
      · exact (ih (widx + 1)
          ⟨stats.RowsRead + 1,
           stats.CellsChecked + (normalizeRow row width).length,
           stats.CellsNullified + (nullifyRow ⟨false, false, false⟩ (normalizeRow row width)).1⟩
          (written ++ [(nullifyRow ⟨false, false, false⟩ (normalizeRow row width)).2])).trans
          (by simp [hz])

/-- C10: with every switch off, `IsNull` rejects every string (the empty
string included); hence any run under that policy reports
`cellsNullified = 0`, and a clean run writes every data row back with no
cell value changed, only width-normalized. -/
theorem nullifyFile_allOff :
    (∀ s : String, Policy.IsNull ⟨false, false, false⟩ s = false) ∧
      (∀ (input : List ReadItem) (wfail : Nat → Bool) (flushFail : Bool),
        (NullifyFile ⟨false, false, false⟩ input wfail
          flushFail).1.CellsNullified = 0) ∧
      (∀ (headers : List String) (rows : List (List String)),
        (NullifyFile ⟨false, false, false⟩
            (ReadItem.ok headers :: rows.map ReadItem.ok)
            (fun _ => false) false).2.1
          = headers :: rows.map fun r => normalizeRow r headers.length) := by
  refine ⟨isNull_allOff, ?_, ?_⟩
  · intro input wfail flushFail
    match input with
    | [] => rfl
    | ReadItem.err m :: _ => rfl
    | ReadItem.ok headers :: rest =>
      simp only [NullifyFile]
      split
      · rfl
      · exact nullifyLoop_allOff_nullified headers.length wfail flushFail rest 1
          ⟨0, 0, 0⟩ [headers]
  · intro headers rows
    have h := nullifyLoop_allOk_written ⟨false, false, false⟩ headers.length rows 1
      ⟨0, 0, 0⟩ [headers]
    simp only [nullifyRow_allOff] at h
    exact h

/-- C9: with a readable input whose first record is the header, asking for
zero rows succeeds, returning the header and no data rows — not an error. -/
theorem readHead_zero (headers : List String) (rest : List ReadItem) :
    ReadHead (ReadItem.ok headers :: rest) 0
      = Except.ok (headers, ([] : List (List String))) := by
  cases rest with
  | nil => rfl
  | cons item rest => rfl

end GoMail
